import Mathlib

/-!
Verification of the Brian's Brain cellular automaton (src/briansbrain.c).

The grid is modelled as a total function `Int → Int → Int`: the C program
stores cells as `int world[MAX_X][MAX_Y]`, so a cell is an arbitrary `int`
(the three meaningful values are the enum `READY`, `REFRACTORY`, `FIRING`).
Only coordinates `0 ≤ x < MAX_X`, `0 ≤ y < MAX_Y` correspond to array
entries; out-of-range points of the function stand for memory the program
never touches, and every embedded operation leaves them unchanged.

The imperative loops of `apply_rules` and `populate` are embedded as left
folds over the list of visited coordinates in iteration order, threading
the mutated array (and, for `populate`, the count of `rand()` calls made
so far) through the fold.  `rand()` is modelled as a stream `Nat → Nat`
giving the successive values returned by the C library.
-/

/-- `MAX_X` from the source: grid extent in x. -/
def MAX_X : Int := 300

/-- `MAX_Y` from the source: grid extent in y. -/
def MAX_Y : Int := 300

/-- `DENSITY` from the source: weighting used when seeding. -/
def DENSITY : Nat := 7

/-- Cell state `READY` (first enum value, hence 0). -/
def READY : Int := 0

/-- Cell state `REFRACTORY` (second enum value, hence 1). -/
def REFRACTORY : Int := 1

/-- Cell state `FIRING` (third enum value, hence 2). -/
def FIRING : Int := 2

/-- The world array: cell value at each coordinate pair. -/
abbrev World := Int → Int → Int

/-- Writing one array entry: `w[p.1][p.2] = v`. -/
def update2 (w : World) (p : Int × Int) (v : Int) : World :=
  fun x y => if x = p.1 ∧ y = p.2 then v else w x y

/-- The bounds test of `count_neighbours`:
`(0 <= cx && cx < MAX_X) && (0 <= cy && cy < MAX_Y)`. -/
def inBounds (cx cy : Int) : Bool :=
  (decide (0 ≤ cx) && decide (cx < MAX_X)) && (decide (0 ≤ cy) && decide (cy < MAX_Y))

/-- The nine `(x, y)` offsets visited by the two nested loops of
`count_neighbours` (`y` outer from -1 to 1, `x` inner from -1 to 1),
in iteration order. -/
def offsets : List (Int × Int) :=
  [(-1, -1), (0, -1), (1, -1), (-1, 0), (0, 0), (1, 0), (-1, 1), (0, 1), (1, 1)]

/-- One inner-loop step of `count_neighbours`: if the offset position is in
bounds and holds `FIRING`, increment the count. -/
def count_step (world : World) (x_pos y_pos : Int) (count : Nat) (p : Int × Int) : Nat :=
  if inBounds (x_pos + p.1) (y_pos + p.2) then
    (if world (x_pos + p.1) (y_pos + p.2) = FIRING then count + 1 else count)
  else count

/-- `count_neighbours` from the source: scan the whole 3×3 block centred on
`(x_pos, y_pos)` (centre included) and count in-bounds `FIRING` cells. -/
def count_neighbours (world : World) (x_pos y_pos : Int) : Nat :=
  offsets.foldl (count_step world x_pos y_pos) 0

/-- The eight Moore-neighbour offsets: the 3×3 block minus the centre,
in the same iteration order. -/
def mooreOffsets : List (Int × Int) :=
  [(-1, -1), (0, -1), (1, -1), (-1, 0), (1, 0), (-1, 1), (0, 1), (1, 1)]

/-- Number of in-bounds Moore neighbours of `(x, y)` that hold `FIRING`
(centre excluded) — the count the spec's rules are phrased in. -/
def moore_firing_count (w : World) (x y : Int) : Nat :=
  mooreOffsets.foldl (count_step w x y) 0

/-- The per-cell body of the `apply_rules` loop, reading only the snapshot
`temp`.  In the C code a `READY` cell with a neighbour count other than 2 is
simply not written; the entry then still holds its pre-pass value
`temp[x][y] = cell` (each entry is written at most once per pass), so
returning `cell` in that branch is the same assignment. -/
def apply_rules_cell (temp : World) (x y : Int) : Int :=
  let cell := temp x y
  if cell = READY then
    (if count_neighbours temp x y = 2 then FIRING else cell)
  else if cell = FIRING then REFRACTORY
  else READY

/-- The coordinates `(x, y)` visited by the double loops of `apply_rules`
and `populate`, in iteration order: `y` outer over `[0, MAX_X)`, `x` inner
over `[0, MAX_Y)` (the source swaps the two bounds in the loop conditions;
both are 300, so the square is covered either way). -/
def coords : List (Int × Int) :=
  (List.range (Int.toNat MAX_X)).flatMap
    (fun (y : Nat) =>
      (List.range (Int.toNat MAX_Y)).map (fun (x : Nat) => ((x : Int), (y : Int))))

/-- `apply_rules` from the source: copy the world into the snapshot `temp`,
then for every coordinate write the new state computed from `temp` into the
live world. -/
def apply_rules (world : World) : World :=
  let temp := world
  coords.foldl (fun w p => update2 w p (apply_rules_cell temp p.1 p.2)) world

/-- `weighted_randint` from the source, with the `rand()` result passed in
as `r`: take the last digit of `r` and compare it to the weight. -/
def weighted_randint (r : Nat) (true_weight : Nat) : Nat :=
  let choice := r % 10
  if choice > true_weight then 1 else 0

/-- One loop step of `populate`.  The state is the world together with the
number of `rand()` calls made so far; `rng k` is the value the k-th call
returns.  With `rnd = 1` a cell is written only when the weighted draw
returns 1 — otherwise the entry is left exactly as it was. -/
def populate_step (rng : Nat → Nat) (rnd : Int) (st : World × Nat) (p : Int × Int) :
    World × Nat :=
  if rnd = 1 then
    (if weighted_randint (rng st.2) DENSITY = 1 then update2 st.1 p FIRING else st.1,
     st.2 + 1)
  else (update2 st.1 p READY, st.2)

/-- `populate` from the source: visit every coordinate in loop order,
either randomising (rnd = 1) or clearing to `READY`. -/
def populate (world : World) (rnd : Int) (rng : Nat → Nat) : World :=
  (coords.foldl (populate_step rng rnd) (world, 0)).1

/-- A coordinate pair that denotes an actual array entry. -/
abbrev inRange (x y : Int) : Prop :=
  0 ≤ x ∧ x < MAX_X ∧ 0 ≤ y ∧ y < MAX_Y

/-- Every cell of the grid holds one of the three automaton states. -/
def ValidW (w : World) : Prop :=
  ∀ x y : Int, inRange x y → (w x y = READY ∨ w x y = REFRACTORY ∨ w x y = FIRING)

-- ### Pointwise characterisations of the folds

/-- A fold that writes `f p` at each coordinate `p` of the list leaves a
point with the value of its last (equivalently: any) write, because the
written value depends only on the coordinate. -/
lemma foldl_update_apply (f : Int × Int → Int) :
    ∀ (l : List (Int × Int)) (w : World) (x y : Int),
      (l.foldl (fun w p => update2 w p (f p)) w) x y =
        if (x, y) ∈ l then f (x, y) else w x y := by
  intro l
  induction l with
  | nil => intro w x y; simp
  | cons p l ih =>
    intro w x y
    rw [List.foldl_cons, ih]
    by_cases hl : (x, y) ∈ l
    · simp [hl]
    · by_cases hp : (x, y) = p
      · subst hp
        simp [hl, update2]
      · have : ¬((x, y) ∈ p :: l) := by
          simp [hp, hl]
        simp [hl, hp, this, update2]
        intro h1 h2
        exact absurd (Prod.ext h1 h2) hp

/-- Membership in the visited-coordinate list is exactly the array range. -/
lemma mem_coords (p : Int × Int) :
    p ∈ coords ↔ (0 ≤ p.1 ∧ p.1 < 300 ∧ 0 ≤ p.2 ∧ p.2 < 300) := by
  obtain ⟨a, b⟩ := p
  rw [coords, List.mem_flatMap]
  constructor
  · rintro ⟨y, hy, hm⟩
    rw [List.mem_map] at hm
    obtain ⟨x, hx, h⟩ := hm
    rw [List.mem_range] at hx
    rw [List.mem_range] at hy
    rw [Prod.mk.injEq] at h
    obtain ⟨h1, h2⟩ := h
    revert hx hy
    rw [MAX_X, MAX_Y]
    intro hx hy
    refine ⟨?_, ?_, ?_, ?_⟩ <;> omega
  · rintro ⟨h1, h2, h3, h4⟩
    refine ⟨b.toNat, ?_, ?_⟩
    · rw [List.mem_range, MAX_X]; omega
    · rw [List.mem_map]
      refine ⟨a.toNat, ?_, ?_⟩
      · rw [List.mem_range, MAX_Y]; omega
      · rw [Prod.mk.injEq]
        constructor <;> omega

/-- `apply_rules`, seen one entry at a time: every in-range entry gets the
state computed from the pre-pass snapshot; nothing else changes. -/
lemma apply_rules_apply (w : World) (x y : Int) :
    apply_rules w x y =
      if inRange x y then apply_rules_cell w x y else w x y := by
  show (coords.foldl (fun w2 p => update2 w2 p (apply_rules_cell w p.1 p.2)) w) x y = _
  rw [foldl_update_apply (fun p => apply_rules_cell w p.1 p.2) coords w x y]
  have hiff : (x, y) ∈ coords ↔ inRange x y := by
    rw [mem_coords]; simp [inRange, MAX_X, MAX_Y]
  by_cases h : inRange x y
  · rw [if_pos (hiff.mpr h), if_pos h]
  · rw [if_neg (fun hc => h (hiff.mp hc)), if_neg h]

/-- With the randomise flag off, the `populate` loop is just a sweep writing
`READY` everywhere (the call counter never moves). -/
lemma populate_fold_not_random (rng : Nat → Nat) (rnd : Int) (h : rnd ≠ 1) :
    ∀ (l : List (Int × Int)) (w : World) (k : Nat),
      (l.foldl (populate_step rng rnd) (w, k)).1 =
        l.foldl (fun w p => update2 w p READY) w := by
  intro l
  induction l with
  | nil => intro w k; rfl
  | cons p l ih =>
    intro w k
    rw [List.foldl_cons, List.foldl_cons]
    have hstep : populate_step rng rnd (w, k) p = (update2 w p READY, k) := by
      rw [populate_step, if_neg h]
    rw [hstep, ih]

/-- With the randomise flag on but a `rand()` stream whose last digits never
exceed the weight, every draw returns 0 and the `populate` loop writes
nothing at all: the world comes out exactly as it went in. -/
lemma populate_fold_low_draws (rng : Nat → Nat) (h : ∀ k, rng k % 10 ≤ DENSITY) :
    ∀ (l : List (Int × Int)) (w : World) (k : Nat),
      (l.foldl (populate_step rng 1) (w, k)).1 = w := by
  intro l
  induction l with
  | nil => intro w k; rfl
  | cons p l ih =>
    intro w k
    rw [List.foldl_cons]
    have hdraw : weighted_randint (rng k) DENSITY = 0 := by
      have hk := h k
      show (if rng k % 10 > DENSITY then 1 else 0) = 0
      rw [if_neg (by omega : ¬ rng k % 10 > DENSITY)]
    have hstep : populate_step rng 1 (w, k) p = (w, k + 1) := by
      rw [populate_step, if_pos rfl, hdraw]
      simp
    rw [hstep, ih]

/-- `populate` with the flag off, one entry at a time: all in-range entries
come out `READY`. -/
lemma populate_not_random_apply (w : World) (rnd : Int) (rng : Nat → Nat)
    (h : rnd ≠ 1) (x y : Int) :
    populate w rnd rng x y = if inRange x y then READY else w x y := by
  rw [populate, populate_fold_not_random rng rnd h,
    foldl_update_apply (fun _ => READY) coords w x y]
  have hiff : (x, y) ∈ coords ↔ inRange x y := by
    rw [mem_coords]; simp [inRange, MAX_X, MAX_Y]
  by_cases hr : inRange x y
  · rw [if_pos (hiff.mpr hr), if_pos hr]
  · rw [if_neg (fun hc => hr (hiff.mp hc)), if_neg hr]

-- ### The neighbour count and its relation to the Moore count

/-- The centre offset contributes nothing to the scan as soon as the centre
cell is not `FIRING`. -/
lemma count_step_center (w : World) (x y : Int) (h : w x y ≠ FIRING) (c : Nat) :
    count_step w x y c (0, 0) = c := by
  rw [count_step]
  simp [h]

/-- For a cell that is not `FIRING`, the full 3×3 scan of `count_neighbours`
(centre included) agrees with the count over the 8 Moore neighbours. -/
lemma count_eq_moore (w : World) (x y : Int) (h : w x y ≠ FIRING) :
    count_neighbours w x y = moore_firing_count w x y := by
  rw [count_neighbours, moore_firing_count, offsets, mooreOffsets]
  simp only [List.foldl_cons, List.foldl_nil, count_step_center w x y h]

/-- Each scan step increments the count by at most one. -/
lemma count_step_le (w : World) (x y : Int) (c : Nat) (p : Int × Int) :
    count_step w x y c p ≤ c + 1 := by
  rw [count_step]
  split
  · split <;> omega
  · omega

/-- The scan starting from `c` over a list of offsets never exceeds
`c` plus the number of offsets. -/
lemma count_fold_le (w : World) (x y : Int) :
    ∀ (l : List (Int × Int)) (c : Nat),
      l.foldl (count_step w x y) c ≤ c + l.length := by
  intro l
  induction l with
  | nil => intro c; simp
  | cons p l ih =>
    intro c
    rw [List.foldl_cons]
    calc (l.foldl (count_step w x y) (count_step w x y c p))
        ≤ count_step w x y c p + l.length := ih _
      _ ≤ (c + 1) + l.length := by
          have := count_step_le w x y c p
          omega
      _ = c + (p :: l).length := by rw [List.length_cons]; omega

-- ### An Option-indexed reading of the scan (for the memory-safety claim)

/-- A world whose entries exist only in bounds: reading out of range gives
`none` instead of touching memory that does not belong to the array. -/
def restrictWorld (w : World) : Int → Int → Option Int :=
  fun x y => if inBounds x y then some (w x y) else none

/-- One scan step over an Option-indexed world: the bounds test is taken
first, exactly as in the source, and only then is the entry read; a read
that comes back `none` poisons the whole count. -/
def checked_step (w : Int → Int → Option Int) (x_pos y_pos : Int)
    (acc : Option Nat) (p : Int × Int) : Option Nat :=
  match acc with
  | none => none
  | some c =>
    if inBounds (x_pos + p.1) (y_pos + p.2) then
      match w (x_pos + p.1) (y_pos + p.2) with
      | some cell => some (if cell = FIRING then c + 1 else c)
      | none => none
    else some c

/-- `count_neighbours` over an Option-indexed world. -/
def count_neighbours_checked (w : Int → Int → Option Int) (x_pos y_pos : Int) :
    Option Nat :=
  offsets.foldl (checked_step w x_pos y_pos) (some 0)

/-- Over the in-bounds restriction of a world, a checked scan step never
hits the `none` branch and agrees with the plain step. -/
lemma checked_step_restrict (w : World) (x y : Int) (c : Nat) (p : Int × Int) :
    checked_step (restrictWorld w) x y (some c) p = some (count_step w x y c p) := by
  rw [checked_step, count_step]
  by_cases hb : inBounds (x + p.1) (y + p.2)
  · rw [if_pos hb, if_pos hb]
    rw [restrictWorld]
    rw [if_pos hb]
  · rw [if_neg hb, if_neg hb]

/-- Over the in-bounds restriction, the whole checked scan succeeds and
computes the plain count. -/
lemma checked_fold_restrict (w : World) (x y : Int) :
    ∀ (l : List (Int × Int)) (c : Nat),
      l.foldl (checked_step (restrictWorld w) x y) (some c) =
        some (l.foldl (count_step w x y) c) := by
  intro l
  induction l with
  | nil => intro c; rfl
  | cons p l ih =>
    intro c
    rw [List.foldl_cons, List.foldl_cons, checked_step_restrict, ih]

-- ### The transition rule as the spec words it (the refinement target)

/-- The spec's per-cell rule, decided solely from the pre-generation grid:
a `READY` cell ignites exactly when 2 of its in-bounds Moore neighbours are
`FIRING`, a `FIRING` cell decays to `REFRACTORY`, and anything else
becomes `READY`. -/
def transition_spec (w : World) (x y : Int) : Int :=
  if w x y = READY then
    (if moore_firing_count w x y = 2 then FIRING else READY)
  else if w x y = FIRING then REFRACTORY
  else READY

/-- The fully-simultaneous computation the spec describes: every in-range
cell is rewritten according to `transition_spec` applied to the one
pre-generation grid; no intermediate writes are ever visible. -/
def advance_simultaneous_spec (w : World) : World :=
  fun x y => if inRange x y then transition_spec w x y else w x y

-- ### Bridging helpers

/-- The per-cell body spelled out (the let binding removed). -/
lemma apply_rules_cell_eq (w : World) (x y : Int) :
    apply_rules_cell w x y =
      if w x y = READY then (if count_neighbours w x y = 2 then FIRING else w x y)
      else if w x y = FIRING then REFRACTORY
      else READY := rfl

/-- `apply_rules` at an in-range entry, spelled out. -/
lemma apply_rules_in_range (w : World) (x y : Int) (hr : inRange x y) :
    apply_rules w x y =
      if w x y = READY then (if count_neighbours w x y = 2 then FIRING else w x y)
      else if w x y = FIRING then REFRACTORY
      else READY := by
  rw [apply_rules_apply, if_pos hr, apply_rules_cell_eq]

/-- An initial world standing for the uninitialised array `main` hands to
`populate`: every entry holds the junk value 3, which is none of the three
automaton states. -/
def junkWorld : World := fun _ _ => 3

/-- A `rand()` stream that always returns 0, so every weighted draw
(`0 % 10 > DENSITY`) fails. -/
def zeroRand : Nat → Nat := fun _ => 0

/-- Seeding the junk world with the randomise flag on and the all-zero
stream writes nothing at all. -/
lemma populate_junk_zero : populate junkWorld 1 zeroRand = junkWorld :=
  populate_fold_low_draws zeroRand
    (fun _ => by show (0 : Nat) % 10 ≤ DENSITY; decide) coords junkWorld 0

-- ### The claims

/-- C1 (code bug): the spec says a failed draw sets the cell to `READY`,
but `populate` with `rand == 1` writes a cell only when the draw returns 1;
on a failed draw the entry keeps its prior value — here the junk value 3 of
the uninitialised array, which is not `READY`. -/
theorem seed_keeps_prior_value_on_failed_draw :
    populate junkWorld 1 zeroRand 0 0 = 3 ∧ (3 : Int) ≠ READY := by
  rw [populate_junk_zero]
  exact ⟨rfl, by decide⟩

/-- C2: an in-range `READY` cell of a well-formed grid is `FIRING` after
`apply_rules` exactly when 2 of its in-bounds Moore neighbours were
`FIRING` before, and stays `READY` otherwise. -/
theorem ready_ignition (w : World) (x y : Int) (hv : ValidW w) (hr : inRange x y)
    (hc : w x y = READY) :
    (apply_rules w x y = FIRING ↔ moore_firing_count w x y = 2) ∧
    (moore_firing_count w x y ≠ 2 → apply_rules w x y = READY) := by
  have hne : w x y ≠ FIRING := by rw [hc]; decide
  have happ : apply_rules w x y =
      (if moore_firing_count w x y = 2 then FIRING else READY) := by
    rw [apply_rules_in_range w x y hr, if_pos hc, count_eq_moore w x y hne, hc]
  constructor
  · rw [happ]
    by_cases h2 : moore_firing_count w x y = 2
    · rw [if_pos h2]
      exact ⟨fun _ => h2, fun _ => rfl⟩
    · rw [if_neg h2]
      exact ⟨fun hRF => absurd hRF (by decide), fun h => absurd h h2⟩
  · intro h2
    rw [happ, if_neg h2]

/-- Witness grid for C2: `FIRING` at (1,2) and (3,2), `READY` elsewhere;
cell (2,2) has exactly those two as Moore neighbours. -/
def g2 : World :=
  fun x y => if (x = 1 ∧ y = 2) ∨ (x = 3 ∧ y = 2) then FIRING else READY

theorem ready_ignition_witness :
    ValidW g2 ∧ inRange 2 2 ∧ g2 2 2 = READY ∧
    ((apply_rules g2 2 2 = FIRING ↔ moore_firing_count g2 2 2 = 2) ∧
      (moore_firing_count g2 2 2 ≠ 2 → apply_rules g2 2 2 = READY)) ∧
    apply_rules g2 2 2 = FIRING := by
  have hv : ValidW g2 := by
    intro x y h
    by_cases hc : (x = 1 ∧ y = 2) ∨ (x = 3 ∧ y = 2) <;> simp [g2, hc]
  refine ⟨hv, by decide, by decide, ready_ignition g2 2 2 hv (by decide) (by decide), ?_⟩
  exact (ready_ignition g2 2 2 hv (by decide) (by decide)).1.mpr (by decide)

/-- C3: an in-range `FIRING` cell is `REFRACTORY` after `apply_rules`, and
an in-range `REFRACTORY` cell is `READY` after `apply_rules`, whatever the
neighbours hold. -/
theorem decay_rules (w : World) (x y : Int) (hr : inRange x y) :
    (w x y = FIRING → apply_rules w x y = REFRACTORY) ∧
    (w x y = REFRACTORY → apply_rules w x y = READY) := by
  rw [apply_rules_in_range w x y hr]
  constructor
  · intro h
    rw [if_neg (by rw [h]; decide), if_pos h]
  · intro h
    rw [if_neg (by rw [h]; decide), if_neg (by rw [h]; decide)]

/-- Witness grid for C3: `FIRING` at (0,0), `REFRACTORY` everywhere else. -/
def g3 : World := fun x y => if x = 0 ∧ y = 0 then FIRING else REFRACTORY

theorem decay_rules_witness :
    inRange 0 0 ∧ g3 0 0 = FIRING ∧ apply_rules g3 0 0 = REFRACTORY ∧
    g3 1 0 = REFRACTORY ∧ apply_rules g3 1 0 = READY :=
  ⟨by decide, by decide, (decay_rules g3 0 0 (by decide)).1 (by decide),
    by decide, (decay_rules g3 1 0 (by decide)).2 (by decide)⟩

/-- C4 (code bug): the grid produced by seeding with the randomise flag on
can hold values outside the three automaton states — on the uninitialised
array `main` passes, cells whose draw fails keep their junk value, so the
generation-0 grid violates the total-state invariant. -/
theorem seed_breaks_state_invariant :
    ¬ ValidW (populate junkWorld 1 zeroRand) := by
  intro hv
  have h := hv 0 0 (by decide)
  rw [populate_junk_zero] at h
  simp only [junkWorld] at h
  rcases h with h | h | h <;> revert h <;> decide

/-- C5: `apply_rules` computes exactly the fully-simultaneous generation
the spec describes — every cell's new state is decided solely from the
pre-generation grid, so the sequential write order is invisible. -/
theorem advance_is_simultaneous (w : World) (x y : Int) :
    apply_rules w x y = advance_simultaneous_spec w x y := by
  rw [apply_rules_apply, advance_simultaneous_spec]
  by_cases hr : inRange x y
  · rw [if_pos hr, if_pos hr, apply_rules_cell_eq, transition_spec]
    by_cases h0 : w x y = READY
    · rw [if_pos h0, if_pos h0]
      have hne : w x y ≠ FIRING := by rw [h0]; decide
      rw [count_eq_moore w x y hne]
      by_cases h2 : moore_firing_count w x y = 2
      · rw [if_pos h2, if_pos h2]
      · rw [if_neg h2, if_neg h2, h0]
    · rw [if_neg h0, if_neg h0]
  · rw [if_neg hr, if_neg hr]

/-- C6: the corner cell (0,0) has exactly 3 in-bounds Moore neighbour
positions, and a `READY` corner ignites exactly when 2 of those 3 — (1,0),
(0,1), (1,1) — are `FIRING`; the 5 out-of-range positions contribute
nothing to the count. -/
theorem corner_ignition (w : World) (hc : w 0 0 = READY) :
    ((mooreOffsets.filter (fun p => inBounds (0 + p.1) (0 + p.2))).length = 3) ∧
    (apply_rules w 0 0 = FIRING ↔
      (if w 1 0 = FIRING then 1 else 0) + (if w 0 1 = FIRING then 1 else 0) +
        (if w 1 1 = FIRING then 1 else 0) = 2) := by
  have hm : moore_firing_count w 0 0 =
      (if w 1 0 = FIRING then 1 else 0) + (if w 0 1 = FIRING then 1 else 0) +
        (if w 1 1 = FIRING then 1 else 0) := by
    rw [moore_firing_count, mooreOffsets]
    simp only [List.foldl_cons, List.foldl_nil, count_step]
    norm_num [inBounds, MAX_X, MAX_Y]
    by_cases h1 : w 1 0 = FIRING <;> by_cases h2 : w 0 1 = FIRING <;>
      by_cases h3 : w 1 1 = FIRING <;> simp [h1, h2, h3]
  have hne : w 0 0 ≠ FIRING := by rw [hc]; decide
  refine ⟨by decide, ?_⟩
  rw [apply_rules_in_range w 0 0 (by decide), if_pos hc,
    count_eq_moore w 0 0 hne, hm, hc]
  by_cases h2 : (if w 1 0 = FIRING then 1 else 0) + (if w 0 1 = FIRING then 1 else 0) +
      (if w 1 1 = FIRING then 1 else 0) = 2
  · rw [if_pos h2]
    exact ⟨fun _ => h2, fun _ => rfl⟩
  · rw [if_neg h2]
    exact ⟨fun hRF => absurd hRF (by decide), fun h => absurd h h2⟩

/-- Witness grid for C6: `FIRING` at (1,0) and (0,1), `READY` elsewhere. -/
def g6 : World :=
  fun x y => if (x = 1 ∧ y = 0) ∨ (x = 0 ∧ y = 1) then FIRING else READY

theorem corner_ignition_witness :
    g6 0 0 = READY ∧
    ((mooreOffsets.filter (fun p => inBounds (0 + p.1) (0 + p.2))).length = 3) ∧
    apply_rules g6 0 0 = FIRING :=
  ⟨by decide, (corner_ignition g6 (by decide)).1,
    (corner_ignition g6 (by decide)).2.mpr (by decide)⟩

/-- C7: for a cell that is not `FIRING` (in particular every `READY` cell,
the only case where `apply_rules` consults the count), the full 3×3 scan of
`count_neighbours` (centre included) equals the count over the 8 in-bounds
Moore neighbours with the centre excluded. -/
theorem center_in_scan_harmless (w : World) (x y : Int) (h : w x y ≠ FIRING) :
    count_neighbours w x y = moore_firing_count w x y :=
  count_eq_moore w x y h

theorem center_in_scan_harmless_witness :
    (fun _ _ => READY : World) 0 0 ≠ FIRING ∧
    count_neighbours (fun _ _ => READY) 0 0 =
      moore_firing_count (fun _ _ => READY) 0 0 :=
  ⟨by decide, center_in_scan_harmless (fun _ _ => READY) 0 0 (by decide)⟩

/-- C8: seeding with the randomise flag off writes `READY` into every
in-range entry, for every prior grid content and every `rand()` stream. -/
theorem seed_not_random_all_ready (w : World) (rng : Nat → Nat) (x y : Int)
    (hr : inRange x y) :
    populate w 0 rng x y = READY := by
  rw [populate_not_random_apply w 0 rng (by decide) x y, if_pos hr]

theorem seed_not_random_all_ready_witness :
    inRange 5 7 ∧ populate (fun _ _ => FIRING) 0 zeroRand 5 7 = READY :=
  ⟨by decide, seed_not_random_all_ready (fun _ _ => FIRING) zeroRand 5 7 (by decide)⟩

/-- C9: `apply_rules` is a pure function of the grid alone — it takes no
random stream and no other state — so two runs on (extensionally) equal
grids give equal results at every entry. -/
theorem advance_deterministic (w1 w2 : World) (h : ∀ x y, w1 x y = w2 x y) :
    ∀ x y, apply_rules w1 x y = apply_rules w2 x y := by
  have heq : w1 = w2 := funext (fun x => funext (fun y => h x y))
  rw [heq]
  exact fun x y => rfl

theorem advance_deterministic_witness :
    apply_rules (fun _ _ => READY) 0 0 = apply_rules (fun _ _ => READY) 0 0 :=
  advance_deterministic (fun _ _ => READY) (fun _ _ => READY) (fun _ _ => rfl) 0 0

/-- C10: for every in-range coordinate, the 3×3 scan of `count_neighbours`
reads only in-bounds entries — over the Option-indexed world that exists
only in bounds, the checked scan never hits the out-of-bounds branch and
returns the same count — and the count is at most 9. -/
theorem count_neighbours_safe_and_bounded (w : World) (x y : Int) (hr : inRange x y) :
    count_neighbours_checked (restrictWorld w) x y = some (count_neighbours w x y) ∧
    count_neighbours w x y ≤ 9 := by
  constructor
  · rw [count_neighbours_checked, count_neighbours, checked_fold_restrict]
  · rw [count_neighbours]
    have h := count_fold_le w x y offsets 0
    simpa using h

theorem count_neighbours_safe_and_bounded_witness :
    inRange 3 4 ∧
    (count_neighbours_checked (restrictWorld (fun _ _ => FIRING)) 3 4 =
        some (count_neighbours (fun _ _ => FIRING) 3 4) ∧
      count_neighbours (fun _ _ => FIRING) 3 4 ≤ 9) :=
  ⟨by decide, count_neighbours_safe_and_bounded (fun _ _ => FIRING) 3 4 (by decide)⟩
